import Mathlib

/-!
Verification of the tweak-composition and player-lifecycle framework of the
YouTube Tweaks userscript (src/main.js, plus the earlier variant in
src/unnamed/part_000).

The JavaScript source is shallowly embedded: DOM elements and tweak objects
are identified by natural numbers (JavaScript object identity), JS numbers by
rationals, and JS strings by Lean strings.  Each definition mirrors one
source function and is annotated with the file and lines it embeds.
-/

namespace YTweaks

/-! ## Player discovery: TweakedYouTubeApp.updatePlayers (src/main.js 112-125)

A wrapper stores the native widget element it wraps (`this.element = player`,
src/main.js 172).  Distinct DOM elements are modelled as distinct naturals;
`e.element === element` is reference identity, i.e. equality of the ids. -/

structure Wrapper where
  element : Nat
deriving DecidableEq

/-- src/main.js 112-125: iterate over the page elements matching
`html5-video-player` (its current DOM collection, modelled as `page`); a
wrapper is pushed for an element exactly when
`!this.players.find(e => (e.element === element))`. -/
def updatePlayers (page : List Nat) (players : List Wrapper) : List Wrapper :=
  match page with
  | [] => players
  | el :: rest =>
    updatePlayers rest
      (if (players.find? fun w => w.element == el).isNone
       then players ++ [Wrapper.mk el]
       else players)

/-! ## Quality fallback: TweakedYouTubePlayer.playbackQuality setter
(src/main.js 353-360) -/

/-- src/main.js 353-360: the value handed to
`setPlaybackQualityRange(quality, quality)`.  When the requested label is
absent from `getAvailableQualityLevels()` the code reassigns
`quality = availableQualities[0]`; `none` models the JS `undefined` read from
an empty list. -/
def setPlaybackQuality (availableQualities : List String) (quality : String) :
    Option String :=
  if !(availableQualities.contains quality) then availableQualities.head?
  else some quality

/-! ## Focus cycling: TweakedYouTubeApp.focusedPlayer / focusNextPlayer
(src/main.js 144-159)

Players are identified by their wrapper ids; `containsActive p` models
`player.contains(document.activeElement)`. -/

/-- src/main.js 144-150: the first tracked player containing the focused
element; `none` is the implicit `undefined` of a getter that falls through. -/
def focusedPlayer (players : List Nat) (containsActive : Nat → Bool) :
    Option Nat :=
  players.find? containsActive

/-- src/main.js 152-159: returns the player whose `focus()` is called.  JS
`indexOf(undefined)` yields `-1`, modelled by the `none` branch. -/
def focusNextPlayer (players : List Nat) (containsActive : Nat → Bool) :
    Option Nat :=
  if players.length = 0 then none
  else
    let idx : Int :=
      match focusedPlayer players containsActive with
      | none => -1
      | some p => (players.indexOf p : Int)
    players.get? (((idx + 1) % (players.length : Int)).toNat)

/-! ## Refresh pass: TweakedYouTubeApp.refreshHandler (src/main.js 127-134)

Hook invocations are recorded as events.  Tweaks are identified by their
position-independent ids (object identity).  Creating a wrapper runs, in
order, `applyEagerTweaks` (onPlayerEagerInit for every tweak) and then
`applyTweaks(INIT)` (onPlayerInit for every tweak), src/main.js 193-196. -/

inductive Event where
  | playerEagerInit (tweak el : Nat)
  | playerInit (tweak el : Nat)
  | appRefresh (tweak : Nat)
  | playerRefresh (tweak el : Nat)
deriving DecidableEq

/-- Discovery-time events: the hooks run by the TweakedYouTubePlayer
constructor when a wrapper is created during updatePlayers. -/
def Event.isDiscovery : Event → Bool
  | .playerEagerInit _ _ => true
  | .playerInit _ _ => true
  | _ => false

/-- src/main.js 232-236 and 238-243 with event INIT: hook order inside the
TweakedYouTubePlayer constructor. -/
def newPlayerTrace (tweaks : List Nat) (el : Nat) : List Event :=
  (tweaks.map fun t => Event.playerEagerInit t el)
    ++ (tweaks.map fun t => Event.playerInit t el)

/-- src/main.js 112-125 again, now also recording the hook invocations each
wrapper construction performs. -/
def updatePlayersT (tweaks page : List Nat) (players : List Wrapper) :
    List Wrapper × List Event :=
  match page with
  | [] => (players, [])
  | el :: rest =>
    if (players.find? fun w => w.element == el).isNone then
      let r := updatePlayersT tweaks rest (players ++ [Wrapper.mk el])
      (r.1, newPlayerTrace tweaks el ++ r.2)
    else updatePlayersT tweaks rest players

/-- src/main.js 99-110 with event REFRESH: `onAppRefresh` for every tweak in
list order. -/
def appApplyTweaksRefresh (tweaks : List Nat) : List Event :=
  tweaks.map Event.appRefresh

/-- src/main.js 238-248 with event REFRESH: `onPlayerRefresh` for every tweak
in list order, against one player. -/
def playerApplyTweaksRefresh (tweaks : List Nat) (el : Nat) : List Event :=
  tweaks.map fun t => Event.playerRefresh t el

/-- src/main.js 127-134: `this.updatePlayers()`, then app-level
`applyTweaks(REFRESH)`, then `player.applyTweaks(REFRESH)` for each tracked
player in order. -/
def refreshHandler (tweaks page : List Nat) (players : List Wrapper) :
    List Wrapper × List Event :=
  let r := updatePlayersT tweaks page players
  (r.1,
    r.2 ++ appApplyTweaksRefresh tweaks
      ++ r.1.flatMap fun w => playerApplyTweaksRefresh tweaks w.element)

/-! ## Fan-out under a throwing hook (src/main.js 99-110, 238-248, 127-134)

Neither `TweakedYouTubeApp.applyTweaks` nor `TweakedYouTubePlayer.applyTweaks`
nor the player loop of `refreshHandler` wraps a hook call in try/catch, so a
raised exception aborts the enclosing `for` loop and propagates.  A tweak is
modelled by its id together with whether its hook for the pass at hand
throws; the result is the list of hooks that were entered, paired with `true`
iff the pass ran to completion (no exception escaped). -/

structure JTweak where
  id : Nat
  throws : Bool
deriving DecidableEq

/-- One fan-out pass of applyTweaks (src/main.js 99-110 at app level,
238-248 at player level — both loops have the same shape): each tweak's hook
is entered in list order; a throw ends the loop with the exception
propagating (`false`). -/
def applyTweaksThrow : List JTweak → List Nat × Bool
  | [] => ([], true)
  | t :: rest =>
    if t.throws then ([t.id], false)
    else
      let r := applyTweaksThrow rest
      (t.id :: r.1, r.2)

/-- src/main.js 131-133: the per-player loop of refreshHandler; a throw from
one player's pass aborts the loop over the remaining players.  Entries are
(player, tweak id). -/
def playersApplyTweaksThrow (tweaks : List JTweak) :
    List Nat → List (Nat × Nat) × Bool
  | [] => ([], true)
  | p :: rest =>
    let r := applyTweaksThrow tweaks
    if r.2 then
      let r2 := playersApplyTweaksThrow tweaks rest
      ((r.1.map fun h => (p, h)) ++ r2.1, r2.2)
    else (r.1.map fun h => (p, h), false)

/-! ## UI visibility toggle: TweakedYouTubePlayer.hideUI / showUI
(src/main.js 385-401)

A UI element carries its inline display style (`element.style.display`), the
`oldDisplayStyle` JS object property the code records into, and the element's
DOM attribute map (names only).  These are distinct stores: assigning
`element.oldDisplayStyle = ...` creates an object property, while
`element.removeAttribute("oldDisplayStyle")` only touches the attribute map,
per DOM semantics. -/

structure UIElement where
  display : String
  oldDisplayStyle : Option String
  attrs : List String
deriving DecidableEq

structure PlayerUI where
  UIElements : List UIElement
  isUIEnabled : Bool
  ignoreNextUIMutation : Bool
deriving DecidableEq

/-- src/main.js 387-389: record the current display style in the
`oldDisplayStyle` property, then force display to "none". -/
def hideUIElement (e : UIElement) : UIElement :=
  { e with oldDisplayStyle := some e.display, display := "none" }

/-- src/main.js 396-398: write the recorded property back into
`style.display` (assigning JS `undefined` to a CSS property is a no-op,
modelled by the `none` branch), then `removeAttribute("oldDisplayStyle")`,
which removes the DOM attribute of that name — not the object property. -/
def showUIElement (e : UIElement) : UIElement :=
  { e with
    display :=
      match e.oldDisplayStyle with
      | some s => s
      | none => e.display
    attrs := e.attrs.erase "oldDisplayStyle" }

/-- src/main.js 385-392. -/
def hideUI (p : PlayerUI) : PlayerUI :=
  { UIElements := p.UIElements.map hideUIElement
    isUIEnabled := false
    ignoreNextUIMutation := true }

/-- src/main.js 394-401. -/
def showUI (p : PlayerUI) : PlayerUI :=
  { UIElements := p.UIElements.map showUIElement
    isUIEnabled := true
    ignoreNextUIMutation := true }

/-! ## Effective time display: EffectiveTimeDisplay.effTimeStrings and
secsToDisplayFormat (src/main.js 1104-1152, identically
src/unnamed/part_000 1028-1070)

`secsToDisplayFormat` mixes JS dynamic typing into its padding logic: the
variables d and h are reassigned from numbers to strings, and the later
comparisons `== 0`, `!= 0`, `< 10` are JS loose comparisons on those values.
`JSVal` models a JS value that is either a number or a string. -/

inductive JSVal where
  | num (n : Int)
  | str (s : String)
deriving DecidableEq

/-- Decimal value of a digit string, accumulator style. -/
def jsDigitsVal : List Char → Nat → Nat
  | [], acc => acc
  | c :: cs, acc => jsDigitsVal cs (acc * 10 + (c.toNat - 48))

/-- JS ToNumber restricted to the strings this code ever compares: the empty
string (ToNumber "" = 0) and unsigned digit strings such as "05"; `none`
stands for NaN. -/
def jsToNumber (s : String) : Option Int :=
  if s.data.all (fun c => c.isDigit) then
    some (Int.ofNat (jsDigitsVal s.data 0))
  else none

/-- JS string conversion: integral numbers print without a decimal point. -/
def jsValToString : JSVal → String
  | .num n => toString n
  | .str s => s

/-- JS `+`: numeric addition on two numbers, string concatenation as soon as
one operand is a string. -/
def jsAdd : JSVal → JSVal → JSVal
  | .num a, .num b => .num (a + b)
  | a, b => .str (jsValToString a ++ jsValToString b)

/-- JS loose `x == 0`. -/
def jsEqZero : JSVal → Bool
  | .num n => n == 0
  | .str s => jsToNumber s == some 0

/-- JS loose `x != 0`. -/
def jsNeZero (v : JSVal) : Bool := !jsEqZero v

/-- JS loose `x < 10` (false when ToNumber gives NaN). -/
def jsLtTen : JSVal → Bool
  | .num n => decide (n < 10)
  | .str s =>
    match jsToNumber s with
    | some n => decide (n < 10)
    | none => false

/-- src/main.js 1140-1151: the separator and zero-padding logic of
secsToDisplayFormat, applied to the already-extracted integer day/hour/
minute/second counts.  Mirrors the statement sequence: after
`if (d == 0) { d = dhSeparator = "" }` the variable d may hold the empty
string, and every later `d == 0`, `d != 0`, `h < 10`, `h != 0` is a loose
comparison on the possibly-reassigned JSVal.  The final expression
`d + dhSeparator + h + hmSeparator + m + msSeparator + s` concatenates as
strings because every separator is a string. -/
def displayDHMS (d0 h0 m0 s0 : Int) : String :=
  let d : JSVal := if d0 == 0 then .str "" else .num d0
  let dhSeparator := if d0 == 0 then "" else ":"
  let hZeroed := jsEqZero d && h0 == 0
  let h : JSVal := if hZeroed then .str "" else .num h0
  let hmSeparator := if hZeroed then "" else ":"
  let h1 : JSVal := if jsLtTen h && jsNeZero d then jsAdd (.str "0") h else h
  let m : JSVal :=
    if decide (m0 < 10) && (jsNeZero d || jsNeZero h1) then
      jsAdd (.str "0") (.num m0)
    else .num m0
  let s : JSVal :=
    if decide (s0 < 10) then jsAdd (.str "0") (.num s0) else .num s0
  jsValToString d ++ dhSeparator ++ jsValToString h1 ++ hmSeparator
    ++ jsValToString m ++ ":" ++ jsValToString s

/-- src/main.js 1132: `d = Math.floor(secs / 86400)`. -/
def jsD (secs : ℚ) : Int := ⌊secs / 86400⌋

/-- src/main.js 1133-1134: after `secs -= d * 86400`,
`h = Math.floor(secs / 3600)`. -/
def jsH (secs : ℚ) : Int := ⌊(secs - jsD secs * 86400) / 3600⌋

/-- src/main.js 1135-1136: minute count after the d and h subtractions. -/
def jsM (secs : ℚ) : Int :=
  ⌊(secs - jsD secs * 86400 - jsH secs * 3600) / 60⌋

/-- src/main.js 1137-1138: `s = Math.floor(secs)` after all subtractions —
fractional seconds are floored. -/
def jsS (secs : ℚ) : Int :=
  ⌊secs - jsD secs * 86400 - jsH secs * 3600 - jsM secs * 60⌋

/-- src/main.js 1131-1152: full number-of-seconds to display-string
conversion. -/
def secsToDisplayFormat (secs : ℚ) : String :=
  displayDHMS (jsD secs) (jsH secs) (jsM secs) (jsS secs)

/-- Digits of num/den after the decimal point (long division); the fuel is
never exhausted for dyadic rationals, which is every value a JS number can
hold. -/
def fracDigits : Nat → Nat → Nat → String
  | 0, _, _ => ""
  | _ + 1, 0, _ => ""
  | fuel + 1, num, den =>
    toString (num * 10 / den) ++ fracDigits fuel (num * 10 % den) den

/-- JS template-literal formatting `${rate}` of a number, as its exact
finite decimal expansion (integers print with no decimal point). -/
def ratToJSString (q : ℚ) : String :=
  let sign := if q < 0 then "-" else ""
  let n := q.num.natAbs
  let intPart := toString (n / q.den)
  let frac := fracDigits 40 (n % q.den) q.den
  if frac = "" then sign ++ intPart else sign ++ intPart ++ "." ++ frac

/-- src/main.js 1104-1124: `if (!rate || rate == 1)` keeps the raw times and
an empty rate label, otherwise the times are divided by the rate and the
label is a space, the rate in parentheses and an "x".  Among rationals the
only falsy rate is 0 (NaN has no rational model). -/
def effTimeStrings (current duration rate : ℚ) : String × String × String :=
  if rate = 0 ∨ rate = 1 then
    (secsToDisplayFormat current, secsToDisplayFormat duration, "")
  else
    (secsToDisplayFormat (current / rate), secsToDisplayFormat (duration / rate),
      " (" ++ ratToJSString rate ++ "x)")

/-- effTimeStrings with every division site guarded: evaluates to `none` if
a division with divisor 0 would be executed, used to state that no division
by zero is reachable. -/
def effTimeStringsChecked (current duration rate : ℚ) :
    Option (String × String × String) :=
  if rate = 0 ∨ rate = 1 then
    some (secsToDisplayFormat current, secsToDisplayFormat duration, "")
  else
    if rate = 0 then none
    else
      some (secsToDisplayFormat (current / rate),
        secsToDisplayFormat (duration / rate),
        " (" ++ ratToJSString rate ++ "x)")

/-! ## Playback-rate ladder: ModPlaybackRate.nextRate and
moddedStepPlaybackRate (src/main.js 667-704) -/

/-- JS `Math.trunc`. -/
def jsTrunc (q : ℚ) : Int := if q < 0 then ⌈q⌉ else ⌊q⌋

/-- src/main.js 685-695: the `Object.entries` loop.  Entry keys are strings
that the arithmetic `i - 0.5` and `i - 0` coerces back to numbers, so the
index accumulates as a (possibly half-integral) number, starting from the
default `playbackRates.length - 1`. -/
def closestRateIdx (oldRate dflt : ℚ) : Nat → List ℚ → ℚ
  | _, [] => dflt
  | i, r :: rest =>
    if oldRate < r then (i : ℚ) - 1 / 2
    else if oldRate = r then (i : ℚ)
    else closestRateIdx oldRate dflt (i + 1) rest

/-- src/main.js 684-704: index of the closest ladder entry, moved one step in
`direction`, truncated, clamped into `[0, length - 1]`, and read back from
the ladder; `none` models the `undefined` read from an empty ladder. -/
def nextRate (playbackRates : List ℚ) (oldRate direction : ℚ) : Option ℚ :=
  let closest :=
    closestRateIdx oldRate ((playbackRates.length : ℚ) - 1) 0 playbackRates
  let idx := jsTrunc (closest + direction)
  let idxClamped := max 0 (min ((playbackRates.length : Int) - 1) idx)
  playbackRates.get? idxClamped.toNat

/-- src/main.js 667-682: moddedStepPlaybackRate assigns
`player.playbackRate = nextRate(oldRate, direction)`; the result of one step,
as a total function (`none`, i.e. an undefined rate, never occurs for a
non-empty ladder — see nextRate_mem). -/
def stepPlaybackRate (playbackRates : List ℚ) (direction oldRate : ℚ) : ℚ :=
  match nextRate playbackRates oldRate direction with
  | some r => r
  | none => oldRate

/-! ## Bounded retry: Tweak.retryOnFail (src/main.js 461-468)

The callback's successive results are modelled as a sequence of booleans
(`results k` is what the k-th invocation reports); the returned list holds
the times at which the callback is invoked, the first at `t` and each
rescheduled one `interval` later. -/

def retryOnFail (results : Nat → Bool) (interval t : ℚ) (k maxTries : Nat) :
    List ℚ :=
  t ::
    (if results k = true ∨ maxTries ≤ 1 then []
     else retryOnFail results interval (t + interval) (k + 1) (maxTries - 1))
termination_by maxTries
decreasing_by
  rename_i h
  rw [not_or] at h
  omega

/-! ## Lemmas about player discovery -/

theorem updatePlayers_grows (page : List Nat) (players : List Wrapper) :
    ∃ new, updatePlayers page players = players ++ new := by
  induction page generalizing players with
  | nil => exact ⟨[], (List.append_nil players).symm⟩
  | cons el rest ih =>
    cases hfind : (players.find? fun w => w.element == el).isNone with
    | true =>
      obtain ⟨new, hnew⟩ := ih (players ++ [Wrapper.mk el])
      refine ⟨Wrapper.mk el :: new, ?_⟩
      simp [updatePlayers, hfind, hnew]
    | false =>
      obtain ⟨new, hnew⟩ := ih players
      refine ⟨new, ?_⟩
      simp [updatePlayers, hfind, hnew]

theorem mem_updatePlayers_of_mem (page : List Nat) (players : List Wrapper)
    (w : Wrapper) (hw : w ∈ players) : w ∈ updatePlayers page players := by
  obtain ⟨new, hnew⟩ := updatePlayers_grows page players
  rw [hnew]
  exact List.mem_append_left _ hw

theorem updatePlayers_covers (page : List Nat) (players : List Wrapper)
    (el : Nat) (hel : el ∈ page) :
    ∃ w, w ∈ updatePlayers page players ∧ w.element = el := by
  induction page generalizing players with
  | nil => cases hel
  | cons el2 rest ih =>
    rcases List.mem_cons.mp hel with heq | hmem
    · subst heq
      cases hfind : (players.find? fun w => w.element == el).isNone with
      | true =>
        refine ⟨Wrapper.mk el, ?_, rfl⟩
        simp only [updatePlayers, hfind, if_true]
        exact mem_updatePlayers_of_mem _ _ _ (by simp)
      | false =>
        rw [Bool.eq_false_iff, Ne, Option.isNone_iff_eq_none] at hfind
        obtain ⟨w, hw⟩ := Option.ne_none_iff_exists.mp hfind
        have hmemw : w ∈ players := List.mem_of_find?_eq_some hw.symm
        have helw := List.find?_some hw.symm
        simp only [beq_iff_eq] at helw
        refine ⟨w, ?_, helw⟩
        have hfalse : (players.find? fun w => w.element == el).isNone = false := by
          rw [hw.symm]
          rfl
        simp only [updatePlayers, hfalse, Bool.false_eq_true, if_false]
        exact mem_updatePlayers_of_mem _ _ _ hmemw
    · cases hfind : (players.find? fun w => w.element == el2).isNone with
      | true =>
        obtain ⟨w, hw1, hw2⟩ := ih (players ++ [Wrapper.mk el2]) hmem
        refine ⟨w, ?_, hw2⟩
        simp only [updatePlayers, hfind, if_true]
        exact hw1
      | false =>
        obtain ⟨w, hw1, hw2⟩ := ih players hmem
        refine ⟨w, ?_, hw2⟩
        simp only [updatePlayers, hfind, Bool.false_eq_true, if_false]
        exact hw1

theorem updatePlayers_stable (page : List Nat) (players : List Wrapper)
    (hcov : ∀ el ∈ page, ∃ w, w ∈ players ∧ w.element = el) :
    updatePlayers page players = players := by
  induction page generalizing players with
  | nil => rfl
  | cons el rest ih =>
    obtain ⟨w, hw1, hw2⟩ := hcov el (List.mem_cons_self el rest)
    have hfind : ¬((players.find? fun w => w.element == el).isNone = true) := by
      rw [Option.isNone_iff_eq_none]
      intro hnone
      rw [List.find?_eq_none] at hnone
      exact hnone w hw1 (by simp [hw2])
    simp only [updatePlayers]
    rw [if_neg hfind]
    exact ih players fun e he => hcov e (List.mem_cons_of_mem el he)

theorem updatePlayers_idem (page : List Nat) (players : List Wrapper) :
    updatePlayers page (updatePlayers page players) =
      updatePlayers page players := by
  refine updatePlayers_stable page _ fun el hel => ?_
  obtain ⟨w, hw1, hw2⟩ := updatePlayers_covers page players el hel
  exact ⟨w, hw1, hw2⟩

theorem updatePlayers_nodup (page : List Nat) (players : List Wrapper)
    (hnd : (players.map Wrapper.element).Nodup) :
    ((updatePlayers page players).map Wrapper.element).Nodup := by
  induction page generalizing players with
  | nil => exact hnd
  | cons el rest ih =>
    cases hfind : (players.find? fun w => w.element == el).isNone with
    | true =>
      simp only [updatePlayers, hfind, if_true]
      refine ih _ ?_
      rw [List.map_append, List.nodup_append]
      refine ⟨hnd, by simp, ?_⟩
      intro a ha hb
      simp only [List.map_cons, List.map_nil, List.mem_singleton] at hb
      subst hb
      rw [Option.isNone_iff_eq_none, List.find?_eq_none] at hfind
      obtain ⟨w, hw, hwel⟩ := List.mem_map.mp ha
      exact hfind w hw (by simp [hwel])
    | false =>
      simp only [updatePlayers, hfind, Bool.false_eq_true, if_false]
      exact ih _ hnd

/-- Claim C1: player discovery is deduplicating and idempotent — for a fixed
set of native widget elements, N calls of updatePlayers (N ≥ 1) produce the
same tracked-wrapper list as one call; each element has at most one wrapper
(by identity of the stored element reference); the list only grows. -/
theorem updatePlayers_dedup_idem (page : List Nat) (players : List Wrapper)
    (N : Nat) (hN : 1 ≤ N)
    (hnd : (players.map Wrapper.element).Nodup) :
    (fun ps => updatePlayers page ps)^[N] players = updatePlayers page players
    ∧ ((updatePlayers page players).map Wrapper.element).Nodup
    ∧ ∃ new, updatePlayers page players = players ++ new := by
  refine ⟨?_, updatePlayers_nodup page players hnd,
    updatePlayers_grows page players⟩
  obtain ⟨M, rfl⟩ : ∃ M, N = M + 1 := ⟨N - 1, by omega⟩
  clear hN hnd
  induction M with
  | zero => simp
  | succ K ihK =>
    rw [Function.iterate_succ_apply', ihK, updatePlayers_idem]

/-- Witness for C1 at a concrete page (with a repeated element) and an empty
tracked list. -/
theorem updatePlayers_dedup_idem_witness :
    (fun ps => updatePlayers [1, 2, 1] ps)^[2] [] = updatePlayers [1, 2, 1] []
    ∧ ((updatePlayers [1, 2, 1] []).map Wrapper.element).Nodup
    ∧ ∃ new, updatePlayers [1, 2, 1] [] = ([] : List Wrapper) ++ new :=
  updatePlayers_dedup_idem [1, 2, 1] [] 2 (by decide) (by decide)

/-- Claim C7: setting a playback-quality label absent from the available list
applies the first (highest, by native ordering) available label instead of
failing, and a present label is applied unchanged. -/
theorem setPlaybackQuality_fallback (availableQualities : List String)
    (quality : String) :
    (quality ∈ availableQualities →
      setPlaybackQuality availableQualities quality = some quality)
    ∧ (quality ∉ availableQualities →
      setPlaybackQuality availableQualities quality = availableQualities.head?)
    ∧ (quality ∉ availableQualities → availableQualities ≠ [] →
      ∃ first rest, availableQualities = first :: rest ∧
        setPlaybackQuality availableQualities quality = some first) := by
  refine ⟨fun h => ?_, fun h => ?_, fun h hne => ?_⟩
  · simp [setPlaybackQuality, h]
  · simp [setPlaybackQuality, h]
  · match availableQualities, hne with
    | first :: rest, _ =>
      refine ⟨first, rest, rfl, ?_⟩
      simp [setPlaybackQuality, h]

/-- Witness for C7: an unsupported label falls back to the first available
label. -/
theorem setPlaybackQuality_fallback_witness :
    ∃ first rest, ["hd2160", "hd1080"] = first :: rest ∧
      setPlaybackQuality ["hd2160", "hd1080"] "bogus" = some first :=
  (setPlaybackQuality_fallback ["hd2160", "hd1080"] "bogus").2.2
    (by decide) (by decide)

/-- Claim C9: focusNextPlayer focuses the first tracked player when none is
focused (indexOf of undefined is -1, so the next index is 0), cycles to
(focused index + 1) mod count when one is focused, and does nothing with zero
players. -/
theorem focusNextPlayer_spec (players : List Nat)
    (containsActive : Nat → Bool) :
    (players = [] → focusNextPlayer players containsActive = none)
    ∧ (players ≠ [] → focusedPlayer players containsActive = none →
        focusNextPlayer players containsActive = players.get? 0)
    ∧ (∀ p i, focusedPlayer players containsActive = some p →
        players.indexOf p = i →
        focusNextPlayer players containsActive =
          players.get? ((i + 1) % players.length)) := by
  refine ⟨?_, ?_, ?_⟩
  · intro h
    subst h
    rfl
  · intro hne hfoc
    have hlen : ¬(players.length = 0) := by
      simpa [List.length_eq_zero] using hne
    simp only [focusNextPlayer, hfoc]
    rw [if_neg hlen]
    norm_num [Int.zero_emod]
  · intro p i hfoc hidx
    have hmem : p ∈ players := List.mem_of_find?_eq_some hfoc
    have hlen : ¬(players.length = 0) := by
      intro h0
      rw [List.length_eq_zero] at h0
      subst h0
      cases hmem
    simp only [focusNextPlayer, hfoc]
    rw [if_neg hlen, hidx]
    norm_cast

theorem updatePlayersT_fst (tweaks page : List Nat) (players : List Wrapper) :
    (updatePlayersT tweaks page players).1 = updatePlayers page players := by
  induction page generalizing players with
  | nil => rfl
  | cons el rest ih =>
    cases hfind : (players.find? fun w => w.element == el).isNone with
    | true => simp [updatePlayersT, updatePlayers, hfind, ih]
    | false => simp [updatePlayersT, updatePlayers, hfind, ih]

theorem updatePlayersT_discovery (tweaks page : List Nat)
    (players : List Wrapper) :
    ∀ e ∈ (updatePlayersT tweaks page players).2, e.isDiscovery = true := by
  induction page generalizing players with
  | nil =>
    intro e he
    cases he
  | cons el rest ih =>
    intro e he
    cases hfind : (players.find? fun w => w.element == el).isNone with
    | true =>
      simp only [updatePlayersT, hfind, if_true] at he
      rcases List.mem_append.mp he with h1 | h2
      · simp only [newPlayerTrace, List.mem_append, List.mem_map] at h1
        rcases h1 with ⟨t, _, rfl⟩ | ⟨t, _, rfl⟩ <;> rfl
      · exact ih _ e h2
    | false =>
      simp only [updatePlayersT, hfind, Bool.false_eq_true, if_false] at he
      exact ih _ e he

/-- Claim C2: within one refresh pass, discovery (wrapper creation together
with its eager and init hooks) completes before any refresh hook runs, every
tweak's onAppRefresh completes before any tweak's onPlayerRefresh begins, and
onPlayerRefresh then runs for every tweak against every tracked wrapper,
including wrappers discovered in the same pass. -/
theorem refreshHandler_ordering (tweaks page : List Nat)
    (players : List Wrapper) :
    ∃ d,
      (refreshHandler tweaks page players).2
        = d ++ tweaks.map Event.appRefresh
          ++ (updatePlayers page players).flatMap
              (fun w => tweaks.map fun t => Event.playerRefresh t w.element)
      ∧ (∀ e ∈ d, e.isDiscovery = true)
      ∧ (refreshHandler tweaks page players).1 = updatePlayers page players := by
  refine ⟨(updatePlayersT tweaks page players).2, ?_,
    updatePlayersT_discovery tweaks page players, ?_⟩
  · simp [refreshHandler, appApplyTweaksRefresh, playerApplyTweaksRefresh,
      updatePlayersT_fst]
  · simp [refreshHandler, updatePlayersT_fst]

theorem applyTweaksThrow_ok (tweaks : List JTweak)
    (h : ∀ t ∈ tweaks, t.throws = false) :
    applyTweaksThrow tweaks = (tweaks.map JTweak.id, true) := by
  induction tweaks with
  | nil => rfl
  | cons t rest ih =>
    have ht : t.throws = false := h t (List.mem_cons_self t rest)
    have hrest := ih fun u hu => h u (List.mem_cons_of_mem t hu)
    simp [applyTweaksThrow, ht, hrest]

theorem applyTweaksThrow_throw (pre post : List JTweak) (b : JTweak)
    (hpre : ∀ t ∈ pre, t.throws = false) (hb : b.throws = true) :
    applyTweaksThrow (pre ++ b :: post) = (pre.map JTweak.id ++ [b.id], false) := by
  induction pre with
  | nil => simp [applyTweaksThrow, hb]
  | cons t pre0 ih =>
    have ht : t.throws = false := hpre t (List.mem_cons_self t pre0)
    have h0 := ih fun u hu => hpre u (List.mem_cons_of_mem t hu)
    simp [applyTweaksThrow, ht, h0]

/-- Counterexample for C3: the pass does not invoke the hooks of tweaks after
a throwing one — with tweak 0 throwing and tweak 1 healthy, only tweak 0 is
entered and the exception escapes; likewise a throwing pass for player 5
keeps player 6 from being processed at all. -/
theorem applyTweaks_not_fault_contained :
    applyTweaksThrow [JTweak.mk 0 true, JTweak.mk 1 false] = ([0], false)
    ∧ 1 ∉ (applyTweaksThrow [JTweak.mk 0 true, JTweak.mk 1 false]).1
    ∧ playersApplyTweaksThrow [JTweak.mk 0 true] [5, 6] = ([(5, 0)], false) := by
  decide

/-- Claim C3 (amended): hook faults are NOT contained — in any fan-out pass
the hooks of the tweaks before the first throwing one run, the throwing hook
itself is entered, and no later tweak in that pass nor any later player is
processed; the exception propagates out.  If no hook throws, every tweak's
hook runs for every player. -/
theorem applyTweaks_throw_propagates (tweaks pre post : List JTweak)
    (b : JTweak) (p : Nat) (rest players : List Nat) :
    ((∀ t ∈ tweaks, t.throws = false) →
      applyTweaksThrow tweaks = (tweaks.map JTweak.id, true))
    ∧ ((∀ t ∈ pre, t.throws = false) → b.throws = true →
      applyTweaksThrow (pre ++ b :: post)
        = (pre.map JTweak.id ++ [b.id], false))
    ∧ ((∀ t ∈ pre, t.throws = false) → b.throws = true →
      playersApplyTweaksThrow (pre ++ b :: post) (p :: rest)
        = ((pre.map JTweak.id ++ [b.id]).map fun h => (p, h), false))
    ∧ ((∀ t ∈ tweaks, t.throws = false) →
      playersApplyTweaksThrow tweaks players
        = (players.flatMap fun q => tweaks.map fun t => (q, t.id), true)) := by
  refine ⟨applyTweaksThrow_ok tweaks, applyTweaksThrow_throw pre post b,
    fun hpre hb => ?_, fun hok => ?_⟩
  · have hthrow := applyTweaksThrow_throw pre post b hpre hb
    simp [playersApplyTweaksThrow, hthrow]
  · have hpass := applyTweaksThrow_ok tweaks hok
    induction players with
    | nil => rfl
    | cons q qs ih =>
      simp [playersApplyTweaksThrow, hpass, ih, List.map_map]

/-- Witness for the amended C3 at concrete tweak lists: tweak 2 runs, the
throwing tweak 3 is entered, tweak 4 is never invoked. -/
theorem applyTweaks_throw_propagates_witness :
    applyTweaksThrow [JTweak.mk 2 false, JTweak.mk 3 true, JTweak.mk 4 false]
      = ([2, 3], false) := by
  have h := (applyTweaks_throw_propagates [] [JTweak.mk 2 false]
    [JTweak.mk 4 false] (JTweak.mk 3 true) 0 [] []).2.1
    (by decide) (by decide)
  simpa using h

/-- Counterexample for C4: on an element with display "flex", hideUI then
showUI round-trips the display style, but the recorded prior-style
bookkeeping is NOT cleared — `removeAttribute("oldDisplayStyle")` removes a
DOM attribute that was never set, so the `oldDisplayStyle` object property
still holds "flex" afterwards, contradicting the claim that the bookkeeping
is cleared. -/
theorem hideUI_showUI_bookkeeping_not_cleared :
    showUI (hideUI (PlayerUI.mk [UIElement.mk "flex" none []] true false))
      = PlayerUI.mk [UIElement.mk "flex" (some "flex") []] true true
    ∧ ((showUI (hideUI
        (PlayerUI.mk [UIElement.mk "flex" none []] true false))).UIElements.map
          UIElement.oldDisplayStyle ≠ [none]) := by
  decide

/-- Claim C4 (amended): hideUI immediately followed by showUI restores every
UI element's display style to its pre-hide value exactly (an element showing
"flex" reads back "flex", not a generic default), and hideUI records each
element's current display style before forcing it to "none"; the recorded
`oldDisplayStyle` bookkeeping, however, persists after showUI (the
`removeAttribute` call clears a DOM attribute that was never set, not the
object property the recording lives in). -/
theorem hideUI_showUI_round_trip (p : PlayerUI) :
    ((showUI (hideUI p)).UIElements.map UIElement.display
      = p.UIElements.map UIElement.display)
    ∧ (∀ e ∈ (hideUI p).UIElements, e.display = "none")
    ∧ ((hideUI p).UIElements.map UIElement.oldDisplayStyle
      = p.UIElements.map fun e => some e.display)
    ∧ ((showUI (hideUI p)).UIElements.map UIElement.oldDisplayStyle
      = p.UIElements.map fun e => some e.display)
    ∧ (hideUI p).isUIEnabled = false
    ∧ (showUI (hideUI p)).isUIEnabled = true := by
  simp [hideUI, showUI, hideUIElement, showUIElement, List.map_map,
    Function.comp]

/-- Witness for C2 at a concrete pass: one tweak, one fresh page element, no
previously tracked players. -/
theorem refreshHandler_ordering_witness :
    ∃ d,
      (refreshHandler [7] [1] ([] : List Wrapper)).2
        = d ++ [7].map Event.appRefresh
          ++ (updatePlayers [1] ([] : List Wrapper)).flatMap
              (fun w => [7].map fun t => Event.playerRefresh t w.element)
      ∧ (∀ e ∈ d, e.isDiscovery = true)
      ∧ (refreshHandler [7] [1] ([] : List Wrapper)).1
          = updatePlayers [1] ([] : List Wrapper) :=
  refreshHandler_ordering [7] [1] []

/-- Witness for the amended C4 at a concrete element whose display is
"grid". -/
theorem hideUI_showUI_round_trip_witness :
    (showUI (hideUI (PlayerUI.mk [UIElement.mk "grid" none []] true
      false))).UIElements.map UIElement.display = ["grid"]
    ∧ (UIElement.mk "none" (some "grid") ([] : List String)).display
        = "none" := by
  refine ⟨?_, ?_⟩
  · have h := (hideUI_showUI_round_trip
      (PlayerUI.mk [UIElement.mk "grid" none []] true false)).1
    simpa using h
  · exact (hideUI_showUI_round_trip
      (PlayerUI.mk [UIElement.mk "grid" none []] true false)).2.1
      (UIElement.mk "none" (some "grid") []) (by decide)

theorem secsToDisplayFormat_125_over_2 :
    secsToDisplayFormat (125 / 2) = "1:02" := by
  have hD : jsD (125 / 2) = 0 := by
    unfold jsD
    norm_num
  have hH : jsH (125 / 2) = 0 := by
    unfold jsH
    rw [hD]
    push_cast
    norm_num
  have hM : jsM (125 / 2) = 1 := by
    unfold jsM
    rw [hD, hH]
    push_cast
    norm_num
  have hS : jsS (125 / 2) = 2 := by
    unfold jsS
    rw [hD, hH, hM]
    push_cast
    norm_num
  unfold secsToDisplayFormat
  rw [hD, hH, hM, hS]
  decide

theorem secsToDisplayFormat_3692 :
    secsToDisplayFormat 3692 = "1:01:32" := by
  have hD : jsD 3692 = 0 := by
    unfold jsD
    norm_num
  have hH : jsH 3692 = 1 := by
    unfold jsH
    rw [hD]
    push_cast
    norm_num
  have hM : jsM 3692 = 1 := by
    unfold jsM
    rw [hD, hH]
    push_cast
    norm_num
  have hS : jsS 3692 = 32 := by
    unfold jsS
    rw [hD, hH, hM]
    push_cast
    norm_num
  unfold secsToDisplayFormat
  rw [hD, hH, hM, hS]
  decide

theorem effTimeStrings_2x :
    effTimeStrings 125 7384 2 = ("1:02", "1:01:32", " (2x)") := by
  unfold effTimeStrings
  rw [if_neg (by norm_num)]
  rw [show (7384 : ℚ) / 2 = 3692 by norm_num]
  rw [secsToDisplayFormat_3692, secsToDisplayFormat_125_over_2]
  decide

/-- Counterexample for C5 as stated: at current=125, duration=7384, rate=2,
the displayed current time is "1:02", not "01:02" (the minute is not
zero-padded when days and hours are zero), and the rate label is " (2x)"
with a leading space, not "(2x)". -/
theorem effTimeStrings_claim_false :
    (effTimeStrings 125 7384 2).1 ≠ "01:02"
    ∧ (effTimeStrings 125 7384 2).2.2 ≠ "(2x)" := by
  refine ⟨?_, ?_⟩ <;> rw [effTimeStrings_2x] <;> decide

/-- Claim C5 (amended): for current=125, duration=7384, rate=2 the effective
current time 62.5 s is displayed "1:02" with floor semantics (no zero-padding
of the minute, since the loose `d != 0 || h != 0` padding guard fails when
both are the reassigned empty string), the effective duration 3692 s is
displayed "1:01:32", and the rate label is " (2x)" with a leading space; for
rate = 1 the label is empty and both times are the unscaled inputs. -/
theorem effTimeStrings_values (c d : ℚ) :
    effTimeStrings 125 7384 2 = ("1:02", "1:01:32", " (2x)")
    ∧ effTimeStrings c d 1
        = (secsToDisplayFormat c, secsToDisplayFormat d, "") := by
  refine ⟨effTimeStrings_2x, ?_⟩
  simp [effTimeStrings]

/-- Claim C10: a zero (falsy) rate takes the same branch as rate = 1,
returning the unscaled times and an empty rate label, and the divisions by
the rate are never executed with a zero divisor: the division-guarded
variant always yields `some` of the unguarded result. -/
theorem effTimeStrings_rate_zero_safe (c d r : ℚ) :
    effTimeStringsChecked c d r = some (effTimeStrings c d r)
    ∧ effTimeStrings c d 0 = effTimeStrings c d 1
    ∧ effTimeStrings c d 0
        = (secsToDisplayFormat c, secsToDisplayFormat d, "") := by
  refine ⟨?_, by simp [effTimeStrings], by simp [effTimeStrings]⟩
  by_cases h : r = 0 ∨ r = 1
  · simp [effTimeStringsChecked, effTimeStrings, h]
  · have hr0 : ¬r = 0 := fun h0 => h (Or.inl h0)
    simp [effTimeStringsChecked, effTimeStrings, h, hr0]
    split <;> rfl

theorem nextRate_mem (playbackRates : List ℚ) (oldRate direction : ℚ)
    (hne : playbackRates ≠ []) :
    ∃ r, nextRate playbackRates oldRate direction = some r
      ∧ r ∈ playbackRates := by
  have hlen : 0 < playbackRates.length := List.length_pos.mpr hne
  simp only [nextRate]
  set idx := jsTrunc
    (closestRateIdx oldRate ((playbackRates.length : ℚ) - 1) 0 playbackRates
      + direction) with hidx
  set j := max 0 (min ((playbackRates.length : Int) - 1) idx) with hj
  have h0 : (0 : Int) ≤ j := le_max_left _ _
  have h1 : j ≤ (playbackRates.length : Int) - 1 := by
    apply max_le
    · omega
    · exact min_le_left _ _
  have h2 : j.toNat < playbackRates.length := by omega
  exact ⟨playbackRates.get ⟨j.toNat, h2⟩, List.get?_eq_get h2,
    List.get_mem _ _ _⟩

theorem stepPlaybackRate_mem (playbackRates : List ℚ) (direction x : ℚ)
    (hne : playbackRates ≠ []) :
    stepPlaybackRate playbackRates direction x ∈ playbackRates := by
  obtain ⟨r, hr, hmem⟩ := nextRate_mem playbackRates x direction hne
  simp [stepPlaybackRate, hr, hmem]

theorem min?_le_of_mem {l : List ℚ} {lo x : ℚ} (h : l.min? = some lo)
    (hx : x ∈ l) : lo ≤ x := by
  haveI : Std.Antisymm (fun x1 x2 : ℚ => x1 ≤ x2) :=
    ⟨fun h1 h2 => le_antisymm h1 h2⟩
  rw [List.min?_eq_some_iff] at h
  · exact h.2 x hx
  · exact fun a => le_refl a
  · exact fun a b => min_choice a b
  · exact fun a b c => le_min_iff

theorem le_max?_of_mem {l : List ℚ} {hi x : ℚ} (h : l.max? = some hi)
    (hx : x ∈ l) : x ≤ hi := by
  haveI : Std.Antisymm (fun x1 x2 : ℚ => x1 ≤ x2) :=
    ⟨fun h1 h2 => le_antisymm h1 h2⟩
  rw [List.max?_eq_some_iff] at h
  · exact h.2 x hx
  · exact fun a => le_refl a
  · exact fun a b => max_choice a b
  · exact fun a b c => max_le_iff

theorem stepPlaybackRate_fixed_at_2 :
    stepPlaybackRate [1 / 4, 1 / 2, 1, 2] 1 2 = 2 := by
  norm_num [stepPlaybackRate, nextRate, closestRateIdx, jsTrunc, List.get?]
  rfl

theorem stepPlaybackRate_1_to_2 :
    stepPlaybackRate [1 / 4, 1 / 2, 1, 2] 1 1 = 2 := by
  norm_num [stepPlaybackRate, nextRate, closestRateIdx, jsTrunc, List.get?]
  rfl

/-- Claim C6: for every non-empty rate ladder and starting rate inside it,
any number of applications of the overridden step (nextRate with clamped
index) stays inside the ladder and hence within [min ladder, max ladder];
with ladder [0.25, 0.5, 1, 2] and start 1, five increase steps give 2. -/
theorem stepPlaybackRate_bounded (playbackRates : List ℚ) (direction x : ℚ)
    (k : Nat) (hne : playbackRates ≠ []) (hx : x ∈ playbackRates) :
    ((stepPlaybackRate playbackRates direction)^[k] x ∈ playbackRates)
    ∧ (∀ lo, playbackRates.min? = some lo →
        lo ≤ (stepPlaybackRate playbackRates direction)^[k] x)
    ∧ (∀ hi, playbackRates.max? = some hi →
        (stepPlaybackRate playbackRates direction)^[k] x ≤ hi)
    ∧ (stepPlaybackRate [1 / 4, 1 / 2, 1, 2] 1)^[5] 1 = 2 := by
  have hmem : (stepPlaybackRate playbackRates direction)^[k] x
      ∈ playbackRates := by
    induction k with
    | zero => exact hx
    | succ n ih =>
      rw [Function.iterate_succ_apply']
      exact stepPlaybackRate_mem playbackRates direction _ hne
  refine ⟨hmem, fun lo hlo => min?_le_of_mem hlo hmem,
    fun hi hhi => le_max?_of_mem hhi hmem, ?_⟩
  rw [show (5 : Nat) = 4 + 1 from rfl, Function.iterate_succ_apply,
    stepPlaybackRate_1_to_2]
  exact Function.iterate_fixed stepPlaybackRate_fixed_at_2 4

/-- Witness for C6 on the ladder [0.25, 0.5, 1, 2] starting from rate 1:
five increase steps stay in the ladder and end at 2. -/
theorem stepPlaybackRate_bounded_witness :
    ((stepPlaybackRate [1 / 4, 1 / 2, 1, 2] 1)^[5] 1
      ∈ ([1 / 4, 1 / 2, 1, 2] : List ℚ))
    ∧ (stepPlaybackRate [1 / 4, 1 / 2, 1, 2] 1)^[5] 1 = 2 := by
  have h := stepPlaybackRate_bounded [1 / 4, 1 / 2, 1, 2] 1 1 5
    (by simp) (by norm_num)
  exact ⟨h.1, h.2.2.2⟩

theorem retryOnFail_success (results : Nat → Bool) (interval t : ℚ)
    (k m : Nat) (hk : results k = true) :
    retryOnFail results interval t k m = [t] := by
  rw [retryOnFail, hk]
  simp

theorem retryOnFail_fail_trace (results : Nat → Bool) (interval t : ℚ)
    (k maxTries : Nat) (hfail : ∀ j, results j = false) (h1 : 1 ≤ maxTries) :
    retryOnFail results interval t k maxTries
      = (List.range maxTries).map fun j : Nat => t + (j : ℚ) * interval := by
  induction maxTries generalizing t k with
  | zero => omega
  | succ M ih =>
    rw [retryOnFail, hfail k]
    match M with
    | 0 =>
      rw [if_pos (Or.inr (by omega))]
      norm_num [List.range_succ]
    | M + 1 =>
      rw [if_neg (by simp)]
      rw [show M + 1 + 1 - 1 = M + 1 from rfl]
      rw [ih (t + interval) (k + 1) (by omega)]
      rw [List.range_succ_eq_map (M + 1), List.map_cons, List.map_map]
      refine List.cons_eq_cons.mpr ⟨?_, ?_⟩
      · norm_num
      · refine List.map_congr_left fun j hj => ?_
        simp only [Function.comp]
        push_cast
        ring

/-- Claim C8: a never-succeeding callback under retryOnFail is invoked
exactly maxTries times (maxTries ≥ 1), the invocations spaced by the
configured interval starting at the initial call time, after which it stops
silently; a callback that reports success is not rescheduled. -/
theorem retryOnFail_spec (results : Nat → Bool) (interval t : ℚ)
    (k maxTries : Nat) :
    ((∀ j, results j = false) → 1 ≤ maxTries →
      retryOnFail results interval t 0 maxTries
        = (List.range maxTries).map fun j : Nat => t + (j : ℚ) * interval)
    ∧ (results k = true →
      retryOnFail results interval t k maxTries = [t]) :=
  ⟨fun hfail h1 => retryOnFail_fail_trace results interval t 0 maxTries hfail h1,
   fun hk => retryOnFail_success results interval t k maxTries hk⟩

/-- Witness for C8 at maxTries = 3, interval 500, start time 0: exactly the
three invocation times 0, 500, 1000. -/
theorem retryOnFail_spec_witness :
    retryOnFail (fun _ => false) 500 0 0 3
      = (List.range 3).map fun j : Nat => (0 : ℚ) + (j : ℚ) * 500 :=
  (retryOnFail_spec (fun _ => false) 500 0 0 3).1 (fun _ => rfl) (by omega)

/-- Witness for C9: with players [10, 20, 30] and the active element inside
player 20, the next focus goes to player 30. -/
theorem focusNextPlayer_spec_witness :
    focusNextPlayer [10, 20, 30] (fun n => n == 20) = some 30 := by
  have h := (focusNextPlayer_spec [10, 20, 30] (fun n => n == 20)).2.2 20 1
    (by rfl) (by rfl)
  simpa using h

end YTweaks
